import Mathlib

/-!
Verification of the extraction-and-normalization pipeline of the
university-ranking-aggregator repository.

The definitions below are a shallow embedding of the two source scripts:

* `scripts/usnews_direct_extractor.py` — the alias table, the location
  canonicalizer (`_map_location_to_country`, `_clean_location_text`,
  `_is_likely_location`, `_extract_and_clean_country`), the link-anchor
  extraction strategy (`_extract_via_university_links`), the strategy chain
  (`extract_university_data`) and the validator/deduplicator/sorter
  (`_clean_and_standardize_data`).
* `scripts/parse_usnews_text_to_csv.py` — the sequential-line-scan parser
  (`parse_usnews_text`).

Python strings are modelled as Lean `String` manipulated through its
character list (`String.data`); the handful of regular expressions used by
the scripts are embedded as explicit character scans with the same
single-line semantics (all strings fed to these regexes in the source are
single lines, produced by splitting on a newline beforehand).
-/

/-! ### Character and string primitives -/

/-- Model of Python `needle.isPrefixOf`-style check used to build substring
containment: `listIsPref n h` is true when `n` is a prefix of `h`. -/
def listIsPref : List Char → List Char → Bool
  | [], _ => true
  | _ :: _, [] => false
  | a :: as, b :: bs => a == b && listIsPref as bs

/-- Model of the Python substring test `needle in hay` on character lists. -/
def listContainsSub (needle : List Char) : List Char → Bool
  | [] => listIsPref needle []
  | c :: cs => listIsPref needle (c :: cs) || listContainsSub needle cs

/-- Python `needle in hay` on strings. -/
def strContainsStr (hay needle : String) : Bool :=
  listContainsSub needle.data hay.data

/-- Python `s.startswith(p)`. -/
def startsWithS (s p : String) : Bool :=
  listIsPref p.data s.data

/-- Python `s.lower()` (ASCII case folding, which is all the source data uses). -/
def lowerS (s : String) : String :=
  ⟨s.data.map Char.toLower⟩

/-- Drop trailing whitespace from a character list. -/
def dropTrailingWs (l : List Char) : List Char :=
  (l.reverse.dropWhile Char.isWhitespace).reverse

/-- Python `s.strip()` on character lists. -/
def trimChars (l : List Char) : List Char :=
  dropTrailingWs (l.dropWhile Char.isWhitespace)

/-- Python `s.strip()`. -/
def trimS (s : String) : String :=
  ⟨trimChars s.data⟩

/-- Split a character list at the first occurrence of `c`; `none` when `c`
does not occur. -/
def breakAtChar (c : Char) : List Char → Option (List Char × List Char)
  | [] => none
  | x :: xs =>
    if x == c then some ([], xs)
    else (breakAtChar c xs).map (fun p => (x :: p.1, p.2))

/-- Worker for `subParensChars`.  The fuel argument only serves structural
termination; every productive step consumes at least two characters, so the
initial fuel `l.length` is never exhausted. -/
def subParensAux : Nat → List Char → List Char
  | 0, l => l
  | fuel + 1, l =>
    match breakAtChar '(' l with
    | none => l
    | some (pre, rest) =>
      match breakAtChar ')' rest with
      | none => l
      | some (_, post) =>
        dropTrailingWs pre ++ subParensAux fuel (post.dropWhile Char.isWhitespace)

/-- Model of `re.sub(r'\s*\(.*?\)\s*', '', s)` on a single-line string:
every non-overlapping leftmost match — a run of whitespace, an opening
parenthesis, the lazily shortest span up to the next closing parenthesis,
and trailing whitespace — is deleted. -/
def subParensChars (l : List Char) : List Char :=
  subParensAux l.length l

/-- Model of `re.sub(r'\s*-.*$', '', s)` on a single-line string: everything
from the whitespace run preceding the first dash through the end is
deleted. -/
def subDashChars (l : List Char) : List Char :=
  match breakAtChar '-' l with
  | none => l
  | some (pre, _) => dropTrailingWs pre

/-- Python `str.split()` (split on whitespace runs, no empty pieces),
accumulator-based. -/
def splitWordsAux : List Char → List Char → List (List Char)
  | [], acc => if acc.isEmpty then [] else [acc.reverse]
  | c :: cs, acc =>
    if c.isWhitespace then
      if acc.isEmpty then splitWordsAux cs [] else acc.reverse :: splitWordsAux cs []
    else splitWordsAux cs (c :: acc)

/-- Python `str.split()`. -/
def splitWords (l : List Char) : List (List Char) :=
  splitWordsAux l []

/-- Python `str.capitalize()`: first character upper-cased, the rest
lower-cased. -/
def capitalizeWord : List Char → List Char
  | [] => []
  | c :: cs => c.toUpper :: cs.map Char.toLower

/-- Python `' '.join(words)`. -/
def joinSpace : List (List Char) → List Char
  | [] => []
  | [w] => w
  | w :: ws => w ++ ' ' :: joinSpace ws

/-- ASCII letter test, the character class `[A-Za-z]`. -/
def isAsciiLetter (c : Char) : Bool :=
  ('A' ≤ c && c ≤ 'Z') || ('a' ≤ c && c ≤ 'z')

/-- Digits of a decimal numeral to a natural number. -/
def natOfDigits (l : List Char) : Nat :=
  l.foldl (fun acc c => acc * 10 + (c.toNat - '0'.toNat)) 0

/-- Maximal leading digit run, the regex group `(\d+)`. -/
def takeDigits (l : List Char) : List Char :=
  l.takeWhile Char.isDigit

/-- Sign-and-digits body of the Python `int(s)` model, applied after
stripping surrounding whitespace. -/
def pyIntOfChars : List Char → Option Int
  | [] => none
  | c :: ds =>
    if c == '+' then
      if !ds.isEmpty && ds.all Char.isDigit then some (Int.ofNat (natOfDigits ds)) else none
    else if c == '-' then
      if !ds.isEmpty && ds.all Char.isDigit then some (-(Int.ofNat (natOfDigits ds))) else none
    else if (c :: ds).all Char.isDigit then some (Int.ofNat (natOfDigits (c :: ds))) else none

/-- Model of Python `int(s)`: optional surrounding whitespace, an optional
sign, then decimal digits; `none` on anything else (`ValueError`). -/
def pythonIntParse (s : String) : Option Int :=
  pyIntOfChars (trimChars s.data)

/-- Split a text on newline characters, Python `text.split('\n')` (empty
pieces kept). -/
def splitNLAux : List Char → List Char → List String
  | [], acc => [⟨acc.reverse⟩]
  | c :: cs, acc =>
    if c == '\n' then ⟨acc.reverse⟩ :: splitNLAux cs [] else splitNLAux cs (c :: acc)

/-- Model of `[line.strip() for line in text.split('\n') if line.strip()]`,
used identically by both scripts. -/
def preprocessLines (text : String) : List String :=
  ((splitNLAux text.data []).map trimS).filter (fun s => s ≠ "")

/-! ### The alias table (`country_mapping` in `USNewsPolishedExtractor.__init__`) -/

/-- The instance dictionary `self.country_mapping`, in source order. -/
def countryMapping : List (String × String) :=
  [("cambridge (u.s.)", "United States"),
   ("cambridge", "United States"),
   ("stanford", "United States"),
   ("new haven", "United States"),
   ("princeton", "United States"),
   ("berkeley", "United States"),
   ("los angeles", "United States"),
   ("ann arbor", "United States"),
   ("seattle", "United States"),
   ("philadelphia", "United States"),
   ("chicago", "United States"),
   ("boston", "United States"),
   ("new york", "United States"),
   ("baltimore", "United States"),
   ("atlanta", "United States"),
   ("durham", "United States"),
   ("ithaca", "United States"),
   ("oxford", "United Kingdom"),
   ("cambridge (u.k.)", "United Kingdom"),
   ("london", "United Kingdom"),
   ("edinburgh", "United Kingdom"),
   ("glasgow", "United Kingdom"),
   ("toronto", "Canada"),
   ("vancouver", "Canada"),
   ("montreal", "Canada"),
   ("sydney", "Australia"),
   ("melbourne", "Australia"),
   ("canberra", "Australia"),
   ("zurich", "Switzerland"),
   ("beijing", "China"),
   ("shanghai", "China"),
   ("hong kong", "Hong Kong"),
   ("singapore", "Singapore"),
   ("tokyo", "Japan"),
   ("kyoto", "Japan"),
   ("munich", "Germany"),
   ("berlin", "Germany"),
   ("heidelberg", "Germany"),
   ("paris", "France"),
   ("stockholm", "Sweden"),
   ("copenhagen", "Denmark"),
   ("oslo", "Norway"),
   ("helsinki", "Finland"),
   ("amsterdam", "Netherlands"),
   ("utrecht", "Netherlands"),
   ("milan", "Italy"),
   ("rome", "Italy"),
   ("madrid", "Spain"),
   ("barcelona", "Spain"),
   ("vienna", "Austria"),
   ("brussels", "Belgium"),
   ("tel aviv", "Israel"),
   ("jerusalem", "Israel"),
   ("seoul", "South Korea"),
   ("taipei", "Taiwan"),
   ("mumbai", "India"),
   ("delhi", "India"),
   ("bangalore", "India"),
   ("são paulo", "Brazil"),
   ("rio de janeiro", "Brazil"),
   ("mexico city", "Mexico")]

/-- Dictionary lookup in `country_mapping` (keys are pairwise distinct in the
source, so first-match lookup is the dictionary lookup). -/
def lookupAssoc : List (String × String) → String → Option String
  | [], _ => none
  | (k, v) :: rest, key => if k = key then some v else lookupAssoc rest key

/-- `country_mapping.values()` in insertion order, duplicates included, as
iterated by `_map_location_to_country`. -/
def countryMappingValues : List String :=
  countryMapping.map Prod.snd

/-- The local `country_patterns` dict of `_map_location_to_country`, in
source order.  Note the first key is the lower-case string
`"united states"`, exactly as in the source. -/
def countryPatterns : List (String × List String) :=
  [("united states", ["u.s.", "usa", "america", "states"]),
   ("United Kingdom", ["u.k.", "uk", "britain", "england", "scotland", "wales"]),
   ("China", ["prc", "mainland china"]),
   ("South Korea", ["korea", "republic of korea"]),
   ("Taiwan", ["republic of china", "roc"]),
   ("Hong Kong", ["hk", "hong kong sar"])]

/-- First pattern-table entry one of whose patterns occurs in `loc`. -/
def findPattern : List (String × List String) → String → Option String
  | [], _ => none
  | (c, pats) :: rest, loc =>
    if pats.any (fun p => strContainsStr loc p) then some c else findPattern rest loc

/-! ### The location canonicalizer -/

/-- Embedding of `_map_location_to_country` (lines 544-577 of
`usnews_direct_extractor.py`). -/
def map_location_to_country (location_text : String) : String :=
  let l0 := trimS (lowerS location_text)
  let l1 : String := ⟨subParensChars l0.data⟩
  let l2 : String := ⟨subDashChars l1.data⟩
  let location_lower := trimS l2
  match lookupAssoc countryMapping location_lower with
  | some c => c
  | none =>
    match findPattern countryPatterns location_lower with
    | some c => c
    | none =>
      match countryMappingValues.find? (fun v => strContainsStr location_lower (lowerS v)) with
      | some v => v
      | none => "N/A"

/-- Embedding of `_clean_location_text` (lines 579-592). -/
def clean_location_text (text : String) : String :=
  let c0 := trimChars text.data
  let c1 := subParensChars c0
  let c2 := subDashChars c1
  let c3 := c2.dropWhile (fun ch => !isAsciiLetter ch)
  let c4 := trimChars c3
  if 1 < c4.length then ⟨joinSpace ((splitWords c4).map capitalizeWord)⟩ else ⟨c4⟩

/-- The canonicalizer contract of the spec, `canonicalize(text)`: the
per-line resolution order of `_extract_and_clean_country` (lines 489-500),
built from `_map_location_to_country` and `_clean_location_text`. -/
def canonicalize (text : String) : String :=
  let mapped := map_location_to_country text
  if mapped ≠ "N/A" then mapped
  else
    let cleaned := clean_location_text text
    if 2 < cleaned.length then cleaned else "N/A"

/-! ### Records

Both scripts build records as dicts with the keys
`Rank, University, Country, Score, Enrollment`; `Rank` is always an `int`
by the time it reaches the cleaning stage. -/

/-- A candidate/normalized record of the pipeline. -/
structure Candidate where
  Rank : Int
  University : String
  Country : String
  Score : String
  Enrollment : String
deriving DecidableEq, Repr

/-! ### The validator / deduplicator / sorter (`_clean_and_standardize_data`) -/

/-- The reserved non-name set of `_clean_and_standardize_data` (line 726). -/
def reservedNames : List String :=
  ["read more", "view more", "details", "unknown university"]

/-- Rank validation of `_clean_and_standardize_data` (lines 733-738):
`int(uni['Rank'])` then drop unless `0 < rank ≤ 2000`.  The bound `2000` is
hard-coded in the source. -/
def validateRank (r : Int) : Option Int :=
  if 0 < r ∧ r ≤ 2000 then some r else none

/-- Country standardization of `_clean_and_standardize_data`
(lines 741-743). -/
def standardizeCountry (c : String) : String :=
  let c1 := trimS c
  let c2 := if c1 = "" then "N/A" else c1
  if c2 = "N/A" ∨ c2.length < 2 then "N/A" else c2

/-- First pass of `_clean_and_standardize_data` (lines 717-751): trim and
validate the name, drop names already seen (the name is recorded in
`seen_names` before the rank is validated, exactly as in the source),
validate the rank, standardize the country, and overwrite `Score` and
`Enrollment` with the literal `"N/A"`. -/
def validPass : List Candidate → List String → List Candidate
  | [], _ => []
  | u :: us, seen =>
    if trimS u.University = "" ∨ (trimS u.University).length < 3 ∨
       lowerS (trimS u.University) ∈ reservedNames ∨ trimS u.University ∈ seen then
      validPass us seen
    else
      match validateRank u.Rank with
      | none => validPass us (trimS u.University :: seen)
      | some r =>
        { Rank := r, University := trimS u.University, Country := standardizeCountry u.Country,
          Score := "N/A", Enrollment := "N/A" } :: validPass us (trimS u.University :: seen)

/-- Stable insertion by ascending rank; the unique stable ascending sort, as
produced by `cleaned.sort(key=lambda x: x['Rank'])` (line 754). -/
def insertByRank (u : Candidate) : List Candidate → List Candidate
  | [] => [u]
  | v :: vs => if u.Rank ≤ v.Rank then u :: v :: vs else v :: insertByRank u vs

/-- Stable ascending sort by rank. -/
def sortByRank : List Candidate → List Candidate
  | [] => []
  | u :: us => insertByRank u (sortByRank us)

/-- Duplicate-rank removal of `_clean_and_standardize_data` (lines 757-762):
keep the first record at each rank value in sorted order. -/
def dedupByRank : List Candidate → List Int → List Candidate
  | [], _ => []
  | u :: us, seen =>
    if u.Rank ∈ seen then dedupByRank us seen else u :: dedupByRank us (u.Rank :: seen)

/-- Embedding of `_clean_and_standardize_data` (lines 715-764). -/
def clean_and_standardize_data (universities : List Candidate) : List Candidate :=
  dedupByRank (sortByRank (validPass universities [])) []

/-! ### The sequential-line-scan parser (`parse_usnews_text`) -/

/-- The first reject-prefix tuple of the name-line test (line 18). -/
def nameRejectPrefixesA : List String :=
  ["#", "Global Score", "Enrollment", "http", "Hi there", "5/31/25", "Read More"]

/-- The second reject-prefix tuple of the name-line test (line 21). -/
def nameRejectPrefixesB : List String :=
  ["BEST COLLEGES", "Savor Seoul", "EDUCATION", "Home /", "2024-2025 Best",
   "These institutions", "To unlock", "Summary", "POWERED BY", "Canada China",
   "Load More", "Copyright 2025"]

/-- Python `re.match(r'^\w+$', line)`: the line is one nonempty run of word
characters. -/
def isPureWord (s : String) : Bool :=
  !s.data.isEmpty && s.data.all (fun c => c.isAlphanum || c == '_')

/-- The university-name detection of `parse_usnews_text` (lines 18-21). -/
def isNameLine (l : String) : Bool :=
  !(nameRejectPrefixesA.any (startsWithS l)) &&
  !isPureWord l &&
  !strContainsStr l "|" &&
  !(nameRejectPrefixesB.any (startsWithS l))

/-- Model of `re.sub(r'\s*\(tie\).*', '', line)` on a single-line string:
cut at the whitespace run preceding the first `(tie)`. -/
def removeTieChars : List Char → List Char
  | [] => []
  | c :: cs =>
    if listIsPref "(tie)".data ((c :: cs).dropWhile Char.isWhitespace) then []
    else c :: removeTieChars cs

/-- Model of `re.sub(r'#(\d+).*', r'\1', s)` on a single-line string: the
leftmost `#` that is followed by a digit, together with everything after the
digit run, is replaced by the digit run. -/
def subRankNumChars : List Char → List Char
  | [] => []
  | c :: cs =>
    if c == '#' then
      match cs with
      | [] => [c]
      | d :: _ => if d.isDigit then takeDigits cs else c :: subRankNumChars cs
    else c :: subRankNumChars cs

/-- Rank extraction of `parse_usnews_text` (lines 34-38): strip a `(tie)`
marker, extract the `#<digits>` number, and `int(...)` it. -/
def parseRankLine (l : String) : Option Int :=
  pythonIntParse ⟨subRankNumChars (removeTieChars l.data)⟩

/-- Country extraction (lines 27-29): `line.split('|')[0].strip()`. -/
def beforePipe (l : String) : String :=
  trimS ⟨l.data.takeWhile (fun c => c != '|')⟩

/-- Country step of the line scan: consume one line when it contains a pipe. -/
def parseCountryStep : List String → String × List String
  | [] => ("N/A", [])
  | c :: rest => if strContainsStr c "|" then (beforePipe c, rest) else ("N/A", c :: rest)

/-- Rank step of the line scan (lines 32-42).  The outer `some` layer is
`none` exactly on the `ValueError` path (`i += 1; continue`), in which case
the rank line is consumed and the entry abandoned. -/
def rankStep : List String → Option (Option Int) × List String
  | [] => (some none, [])
  | r :: rest =>
    if startsWithS r "#" then
      match parseRankLine r with
      | none => (none, rest)
      | some k => (some (some k), rest)
    else (some none, r :: rest)

/-- Skip an `in Best Global Universities` line (lines 45-46). -/
def skipBestGlobal : List String → List String
  | [] => []
  | x :: rest => if strContainsStr x "in Best Global Universities" then rest else x :: rest

/-- The regex `^\d+\.\d+$` of the score value (line 52). -/
def isDecimalScore (s : String) : Bool :=
  match breakAtChar '.' s.data with
  | some (a, b) => !a.isEmpty && a.all Char.isDigit && !b.isEmpty && b.all Char.isDigit
  | none => false

/-- Score step of the line scan (lines 49-54). -/
def scoreStep : List String → String × List String
  | [] => ("N/A", [])
  | x :: rest =>
    if x = "Global Score" then
      match rest with
      | [] => ("N/A", [])
      | y :: rest2 => if isDecimalScore y then (y, rest2) else ("N/A", y :: rest2)
    else ("N/A", x :: rest)

/-- Enrollment step of the line scan (lines 57-62); thousands separators are
stripped with `replace(',', '')`. -/
def enrollStep : List String → String × List String
  | [] => ("N/A", [])
  | x :: rest =>
    if x = "Enrollment" then
      match rest with
      | [] => ("N/A", [])
      | y :: rest2 => (⟨y.data.filter (fun c => c != ',')⟩, rest2)
    else ("N/A", x :: rest)

/-- The `while` loop of `parse_usnews_text` (lines 16-79).  The fuel
argument only serves structural termination: every iteration consumes at
least one line, so the entry point's fuel `lines.length` is never
exhausted.  A record is appended only when the rank is truthy (nonzero) and
the name is not the literal `'N/A'` (line 65). -/
def parseLinesLoop (maxRank : Nat) : Nat → List String → Nat → List Candidate
  | 0, _, _ => []
  | _ + 1, [], _ => []
  | fuel + 1, l :: ls, cnt =>
    if maxRank ≤ cnt then []
    else if isNameLine l then
      match rankStep (parseCountryStep ls).2 with
      | (none, ls2) => parseLinesLoop maxRank fuel ls2 cnt
      | (some (some k), ls2) =>
        if k ≠ 0 ∧ trimS l ≠ "N/A" then
          { Rank := k, University := trimS l, Country := (parseCountryStep ls).1,
            Score := (scoreStep (skipBestGlobal ls2)).1,
            Enrollment := (enrollStep (scoreStep (skipBestGlobal ls2)).2).1 } ::
            parseLinesLoop maxRank fuel (enrollStep (scoreStep (skipBestGlobal ls2)).2).2 (cnt + 1)
        else parseLinesLoop maxRank fuel (enrollStep (scoreStep (skipBestGlobal ls2)).2).2 cnt
      | (some none, ls2) =>
        parseLinesLoop maxRank fuel (enrollStep (scoreStep (skipBestGlobal ls2)).2).2 cnt
    else parseLinesLoop maxRank fuel ls cnt

/-- Embedding of `parse_usnews_text` (lines 8-79 of
`parse_usnews_text_to_csv.py`): the list of extracted records. -/
def parse_usnews_text (text : String) (maxRank : Nat) : List Candidate :=
  let lines := preprocessLines text
  parseLinesLoop maxRank lines.length lines 0

/-- The observable outcome of the whole `parse_usnews_text` call: when no
university was extracted the function logs a warning and returns without
writing the CSV (lines 81-83), otherwise the records are written. -/
def parseUsnewsCsvOutput (text : String) (maxRank : Nat) : Option (List Candidate) :=
  let universities := parse_usnews_text text maxRank
  if universities = [] then none else some universities

/-! ### The strategy chain (`extract_university_data`) -/

/-- The strategy loop of `extract_university_data` (lines 362-380): each
strategy's result replaces the best set seen so far only when it is
nonempty and strictly larger, and the loop breaks as soon as the newly
retained set reaches `max_entries`.  A strategy that raises is skipped by
the source's `except` clause; here each strategy is represented directly by
its result list. -/
def extractChainLoop (maxEntries : Nat) : List (List Candidate) → List Candidate → List Candidate
  | [], best => best
  | r :: rest, best =>
    if r ≠ [] ∧ best.length < r.length then
      if maxEntries ≤ r.length then r else extractChainLoop maxEntries rest r
    else extractChainLoop maxEntries rest best

/-- Embedding of `extract_university_data` (lines 350-389): run the chain
starting from the empty retained set, return `[]` when every strategy came
up empty (lines 382-384), and otherwise clean the winning set. -/
def extract_university_data (results : List (List Candidate)) (maxEntries : Nat) : List Candidate :=
  let best := extractChainLoop maxEntries results []
  if best = [] then [] else clean_and_standardize_data best

/-! ### Location likelihood and per-item country extraction -/

/-- Word character of the regex `\b` boundary (`[A-Za-z0-9_]`). -/
def isWordChar (c : Char) : Bool :=
  c.isAlphanum || c == '_'

/-- Word-ness of the character on one side of a `\b` position; the string
edge counts as a non-word side. -/
def optIsWord : Option Char → Bool
  | none => false
  | some c => isWordChar c

/-- A `\b` boundary holds between two (possibly absent) characters when
exactly one side is a word character. -/
def boundaryOK (a b : Option Char) : Bool :=
  optIsWord a != optIsWord b

/-- `\b<needle>\b` matches at the current position, given the previous
character. -/
def wordBoundedHere (needle : List Char) (prev : Option Char) (l : List Char) : Bool :=
  listIsPref needle l && boundaryOK prev needle.head? &&
    boundaryOK needle.getLast? (l.drop needle.length).head?

/-- Scan for a `\b<needle>\b` match anywhere. -/
def hasWordBoundedAux (needle : List Char) : Option Char → List Char → Bool
  | prev, [] => wordBoundedHere needle prev []
  | prev, c :: cs => wordBoundedHere needle prev (c :: cs) || hasWordBoundedAux needle (some c) cs

/-- `re.search(r'\b' + needle + r'\b', hay)` for a literal needle. -/
def hasWordBounded (needle hay : String) : Bool :=
  hasWordBoundedAux needle.data none hay.data

/-- The country alternatives of the third location-indicator regex of
`_is_likely_location` (line 528). -/
def locationCountryWords : List String :=
  ["united states", "united kingdom", "canada", "australia", "germany", "france",
   "china", "japan", "india", "brazil", "italy", "spain", "netherlands", "sweden",
   "switzerland", "belgium", "austria", "denmark", "norway", "finland", "singapore",
   "hong kong", "south korea", "taiwan", "israel", "mexico"]

/-- The city alternatives of the fourth location-indicator regex of
`_is_likely_location` (line 529). -/
def locationCityWords : List String :=
  ["cambridge", "oxford", "london", "paris", "tokyo", "beijing", "sydney", "toronto",
   "munich", "zurich", "stockholm", "amsterdam", "copenhagen", "vienna", "brussels",
   "madrid", "barcelona", "milan", "rome"]

/-- `re.search(r'^\d+$', s)` on a single-line string: the whole string is a
digit run. -/
def isAllDigits (s : String) : Bool :=
  !s.data.isEmpty && s.data.all Char.isDigit

/-- `re.search(r'^#\d+', s)`: the string starts with `#` followed by a
digit. -/
def startsHashDigit (s : String) : Bool :=
  match s.data with
  | '#' :: d :: _ => d.isDigit
  | _ => false

/-- The skip patterns of `_is_likely_location` (lines 509-518). -/
def skipPatternHit (tl : String) : Bool :=
  isAllDigits tl || strContainsStr tl "global score" || strContainsStr tl "enrollment" ||
  strContainsStr tl "founded" || strContainsStr tl "read more" || startsHashDigit tl ||
  strContainsStr tl "best global" || strContainsStr tl "universities"

/-- Embedding of `_is_likely_location` (lines 504-542).  `text[0]` is only
evaluated on nonempty lines in the source (the caller filters out blank
lines); on the empty string the model returns `false`. -/
def is_likely_location (text : String) : Bool :=
  let tl := trimS (lowerS text)
  if skipPatternHit tl then false
  else if hasWordBounded "u.s." tl || hasWordBounded "u.k." tl ||
          locationCountryWords.any (fun w => hasWordBounded w tl) ||
          locationCityWords.any (fun w => hasWordBounded w tl) then true
  else
    decide ((splitWords text.data).length ≤ 3) &&
      (match text.data with
       | [] => false
       | c :: _ => c.isUpper) &&
      !(text.data.any Char.isDigit)

/-- Line loop of `_extract_and_clean_country` (lines 477-501). -/
def extractCountryLoop (university_name : String) : List String → String
  | [] => "N/A"
  | line :: rest =>
    let line_lower := lowerS line
    if strContainsStr line_lower (lowerS university_name) || startsWithS line "#" ||
       strContainsStr line_lower "score" || strContainsStr line_lower "enrollment" ||
       strContainsStr line_lower "read more" then extractCountryLoop university_name rest
    else if is_likely_location line then
      let mapped := map_location_to_country line
      if mapped ≠ "N/A" then mapped
      else
        let cleaned := clean_location_text line
        if 2 < cleaned.length then cleaned else extractCountryLoop university_name rest
    else extractCountryLoop university_name rest

/-- Embedding of `_extract_and_clean_country` (lines 469-502). -/
def extract_and_clean_country (item_text : String) (university_name : String) : String :=
  extractCountryLoop university_name (preprocessLines item_text)

/-! ### The link-anchor extraction strategy (`_extract_via_university_links`) -/

/-- One anchor as seen by `_extract_via_university_links`: its text and the
text of its ancestor container, `none` when both ancestor lookups raised
(the `continue` on line 685). -/
structure UniversityLink where
  text : String
  parent : Option String
deriving DecidableEq, Repr

/-- `re.search(r'#(\d+)', s)`: value of the digit run after the first `#`
that is followed by a digit. -/
def searchHashRankChars : List Char → Option Nat
  | [] => none
  | c :: cs =>
    if c == '#' then
      match cs with
      | [] => none
      | d :: _ => if d.isDigit then some (natOfDigits (takeDigits cs)) else searchHashRankChars cs
    else searchHashRankChars cs

/-- `re.search(r'#(\d+)', s)` on strings. -/
def searchHashRank (s : String) : Option Nat :=
  searchHashRankChars s.data

/-- The acceptance test of `_extract_via_university_links` (lines 672-688):
the anchor text is kept when it is nonempty, at least three characters long
and not a reserved non-name, and an ancestor container was found. -/
def acceptedLink (lk : UniversityLink) : Bool :=
  if trimS lk.text = "" ∨ (trimS lk.text).length < 3 ∨
     lowerS (trimS lk.text) ∈ (["read more", "view more", "details"] : List String) then
    false
  else lk.parent.isSome

/-- Link loop of `_extract_via_university_links` (lines 670-711), with the
running `enumerate` index used for the positional fallback rank `i + 1`. -/
def extractLinksGo : List UniversityLink → Nat → List Candidate
  | [], _ => []
  | lk :: rest, i =>
    if trimS lk.text = "" ∨ (trimS lk.text).length < 3 ∨
       lowerS (trimS lk.text) ∈ (["read more", "view more", "details"] : List String) then
      extractLinksGo rest (i + 1)
    else
      match lk.parent with
      | none => extractLinksGo rest (i + 1)
      | some parent_text =>
        { Rank :=
            match searchHashRank parent_text with
            | some n => Int.ofNat n
            | none => Int.ofNat (i + 1),
          University := trimS lk.text,
          Country := extract_and_clean_country parent_text (trimS lk.text),
          Score := "N/A", Enrollment := "N/A" } :: extractLinksGo rest (i + 1)

/-- Embedding of `_extract_via_university_links` (lines 664-713). -/
def extract_via_university_links (links : List UniversityLink) : List Candidate :=
  extractLinksGo links 0

/-- A generic candidate used to instantiate the chain-policy theorem on
concrete data. -/
def mkCand (n : Nat) : Candidate :=
  { Rank := Int.ofNat n, University := "Sample University", Country := "N/A",
    Score := "N/A", Enrollment := "N/A" }

/-! ## Theorems -/

/-- Every alias-table country value other than `"United States"` is a fixed
point of `canonicalize`.  (`"United States"` is not: the pattern table maps
it, via its `'states'` pattern, to its lower-case key `'united states'`.) -/
theorem canonicalize_fixed_on_countryValues :
    ∀ c ∈ countryMappingValues, c ≠ "United States" → canonicalize c = c := by
  decide

/-- Claim C1 (counterexample): on the candidate list
`[{rank:5,name:"A"}, {rank:5,name:"B"}, {rank:3,name:"A"}]` the
validator/deduplicator/sorter returns the empty list — every name is
shorter than three characters and is dropped by the name validation — and
in particular not the claimed `[{rank:3,name:"A"}]`. -/
theorem validator_scenario_counterexample :
    clean_and_standardize_data
      [{ Rank := 5, University := "A", Country := "N/A", Score := "N/A", Enrollment := "N/A" },
       { Rank := 5, University := "B", Country := "N/A", Score := "N/A", Enrollment := "N/A" },
       { Rank := 3, University := "A", Country := "N/A", Score := "N/A", Enrollment := "N/A" }] = [] ∧
    clean_and_standardize_data
      [{ Rank := 5, University := "A", Country := "N/A", Score := "N/A", Enrollment := "N/A" },
       { Rank := 5, University := "B", Country := "N/A", Score := "N/A", Enrollment := "N/A" },
       { Rank := 3, University := "A", Country := "N/A", Score := "N/A", Enrollment := "N/A" }] ≠
      [{ Rank := 3, University := "A", Country := "N/A", Score := "N/A", Enrollment := "N/A" }] := by
  constructor
  · decide
  · decide

/-- Claim C1 (amended): with length-valid names, the input
`[{rank:5,name:"AAA"}, {rank:5,name:"BBB"}, {rank:3,name:"AAA"}]` produces
exactly `[{rank:5,name:"AAA"}]`: name-level dedup runs first in input
order, so the rank-3 record for the already-seen name `"AAA"` is dropped,
and rank-level dedup then drops the rank-5 record for `"BBB"`. -/
theorem validator_scenario_amended :
    clean_and_standardize_data
      [{ Rank := 5, University := "AAA", Country := "N/A", Score := "N/A", Enrollment := "N/A" },
       { Rank := 5, University := "BBB", Country := "N/A", Score := "N/A", Enrollment := "N/A" },
       { Rank := 3, University := "AAA", Country := "N/A", Score := "N/A", Enrollment := "N/A" }] =
      [{ Rank := 5, University := "AAA", Country := "N/A", Score := "N/A", Enrollment := "N/A" }] := by
  decide

/-- Claim C2: the canonicalizer maps `"Cambridge (U.K.)"` to
`"United States"` — the parenthetical is stripped before the direct-map
lookup, so the alias table's own `'cambridge (u.k.)': 'United Kingdom'`
entry is unreachable and the bare key `'cambridge'` wins — while
`"Tokyo"` maps to `"Japan"` and `"Unknown Town"` falls back to the cleaned
`"Unknown Town"` as the spec states. -/
theorem canonicalize_alias_examples :
    canonicalize "Cambridge (U.K.)" = "United States" ∧
    canonicalize "Tokyo" = "Japan" ∧
    canonicalize "Unknown Town" = "Unknown Town" := by
  refine ⟨?_, ?_, ?_⟩ <;> decide

/-- Claim C3 (counterexample): canonicalization is not idempotent on every
input: `canonicalize "Stanford" = "United States"`, but applying
`canonicalize` once more yields the lower-case pattern key
`"united states"`. -/
theorem canonicalize_not_idempotent :
    canonicalize (canonicalize "Stanford") ≠ canonicalize "Stanford" := by
  decide

/-- Claim C3 (amended): canonicalization is idempotent on every input whose
canonical output is an alias-table country other than `"United States"`
(for `"United States"` a second application yields `"united states"`, and
the sentinel `"N/A"` re-canonicalizes to `"N/a"`). -/
theorem canonicalize_idempotent_on_countries (x : String)
    (h1 : canonicalize x ∈ countryMappingValues)
    (h2 : canonicalize x ≠ "United States") :
    canonicalize (canonicalize x) = canonicalize x :=
  canonicalize_fixed_on_countryValues (canonicalize x) h1 h2

/-- Witness for `canonicalize_idempotent_on_countries` at `x = "Tokyo"`. -/
theorem canonicalize_idempotent_on_countries_witness :
    canonicalize "Tokyo" ∈ countryMappingValues ∧
    canonicalize "Tokyo" ≠ "United States" ∧
    canonicalize (canonicalize "Tokyo") = canonicalize "Tokyo" :=
  ⟨by decide, by decide, canonicalize_idempotent_on_countries "Tokyo" (by decide) (by decide)⟩

/-- Claim C4: on the eight-line Harvard input the sequential-line-scan
parser yields exactly one record, with the country taken verbatim from the
text before the first pipe and the thousands separator stripped from the
enrollment. -/
theorem parse_harvard_scenario :
    parse_usnews_text
      "Harvard University\nMassachusetts | United States\n#1\nin Best Global Universities\nGlobal Score\n99.1\nEnrollment\n21,000"
      500 =
      [{ Rank := 1, University := "Harvard University", Country := "Massachusetts",
         Score := "99.1", Enrollment := "21000" }] := by
  decide

/-- Claim C5: the strategy chain (i) never replaces the retained set by a
later result that is not strictly larger, (ii) stops with a new result as
soon as it is strictly larger and reaches the target cardinality, and
(iii) in the spec's scenario — strategy 1 yields 3 candidates, strategy 2
no more than 3, strategy 3 yields 5, with the target not yet reached
at 3 — retains exactly strategy 3's 5 candidates. -/
theorem strategy_chain_policy :
    (∀ (t : Nat) (r best : List Candidate) (rest : List (List Candidate)),
        r.length ≤ best.length →
        extractChainLoop t (r :: rest) best = extractChainLoop t rest best) ∧
    (∀ (t : Nat) (r best : List Candidate) (rest : List (List Candidate)),
        best.length < r.length → t ≤ r.length →
        extractChainLoop t (r :: rest) best = r) ∧
    (∀ (t : Nat) (r1 r2 r3 : List Candidate),
        r1.length = 3 → r2.length ≤ 3 → r3.length = 5 → 3 < t →
        extractChainLoop t [r1, r2, r3] [] = r3) := by
  refine ⟨?_, ?_, ?_⟩
  · intro t r best rest h
    rw [extractChainLoop, if_neg]
    rintro ⟨-, hlt⟩
    omega
  · intro t r best rest hlt htar
    have hne : r ≠ [] := by
      intro he
      rw [he] at hlt
      simp at hlt
    rw [extractChainLoop, if_pos ⟨hne, hlt⟩, if_pos htar]
  · intro t r1 r2 r3 h1 h2 h3 ht
    have hne1 : r1 ≠ [] := by
      intro he; rw [he] at h1; simp at h1
    have hne3 : r3 ≠ [] := by
      intro he; rw [he] at h3; simp at h3
    rw [extractChainLoop, if_pos ⟨hne1, by simp [h1]⟩, if_neg (by omega)]
    rw [extractChainLoop, if_neg (by rintro ⟨-, hlt⟩; omega)]
    rw [extractChainLoop, if_pos ⟨hne3, by omega⟩]
    by_cases h5 : t ≤ r3.length
    · rw [if_pos h5]
    · rw [if_neg h5, extractChainLoop]

/-- Witness for `strategy_chain_policy`: a 3-candidate first strategy, an
empty second and a 5-candidate third, with target 500, retain the third's
result. -/
theorem strategy_chain_policy_witness :
    extractChainLoop 500
      [[mkCand 1, mkCand 2, mkCand 3], [],
       [mkCand 1, mkCand 2, mkCand 3, mkCand 4, mkCand 5]] [] =
      [mkCand 1, mkCand 2, mkCand 3, mkCand 4, mkCand 5] :=
  strategy_chain_policy.2.2 500 [mkCand 1, mkCand 2, mkCand 3] []
    [mkCand 1, mkCand 2, mkCand 3, mkCand 4, mkCand 5]
    (by decide) (by decide) (by decide) (by decide)

/-! ### Structure lemmas about the validator -/

theorem validateRank_bounds {x y : Int} (h : validateRank x = some y) : 0 < y ∧ y ≤ 2000 := by
  unfold validateRank at h
  split at h
  next hc => injection h with he; omega
  next => exact absurd h (by simp)

theorem validPass_mem_shape :
    ∀ (l : List Candidate) (seen : List String) (r : Candidate),
      r ∈ validPass l seen →
      0 < r.Rank ∧ r.Rank ≤ 2000 ∧ r.Score = "N/A" ∧ r.Enrollment = "N/A" := by
  intro l
  induction l with
  | nil => intro seen r h; simp [validPass] at h
  | cons u us ih =>
    intro seen r h
    rw [validPass] at h
    split at h
    · exact ih _ _ h
    · split at h
      · exact ih _ _ h
      next y hy =>
        rcases List.mem_cons.mp h with hr | hr
        · subst hr
          have := validateRank_bounds hy
          exact ⟨this.1, this.2, rfl, rfl⟩
        · exact ih _ _ hr

theorem insertByRank_perm (u : Candidate) :
    ∀ l : List Candidate, List.Perm (insertByRank u l) (u :: l) := by
  intro l
  induction l with
  | nil => exact List.Perm.refl _
  | cons v vs ih =>
    rw [insertByRank]
    split
    · exact List.Perm.refl _
    · exact (ih.cons v).trans (List.Perm.swap u v vs)

theorem sortByRank_perm : ∀ l : List Candidate, List.Perm (sortByRank l) l := by
  intro l
  induction l with
  | nil => exact List.Perm.refl _
  | cons u us ih => exact (insertByRank_perm u (sortByRank us)).trans (ih.cons u)

theorem dedupByRank_sublist :
    ∀ (l : List Candidate) (seen : List Int), List.Sublist (dedupByRank l seen) l := by
  intro l
  induction l with
  | nil => intro seen; simp [dedupByRank]
  | cons u us ih =>
    intro seen
    rw [dedupByRank]
    split
    · exact (ih seen).cons u
    · exact (ih (u.Rank :: seen)).cons₂ u

theorem clean_mem_validPass {l : List Candidate} {r : Candidate}
    (h : r ∈ clean_and_standardize_data l) : r ∈ validPass l [] := by
  unfold clean_and_standardize_data at h
  have h1 := (dedupByRank_sublist _ _).subset h
  exact (sortByRank_perm _).mem_iff.mp h1

theorem dedupByRank_ranks :
    ∀ (l : List Candidate) (seen : List Int),
      List.Pairwise (fun a b => a.Rank ≠ b.Rank) (dedupByRank l seen) ∧
      ∀ r ∈ dedupByRank l seen, r.Rank ∉ seen := by
  intro l
  induction l with
  | nil => intro seen; simp [dedupByRank]
  | cons u us ih =>
    intro seen
    rw [dedupByRank]
    split
    next hmem =>
      exact ⟨(ih seen).1, (ih seen).2⟩
    next hmem =>
      refine ⟨List.pairwise_cons.mpr ⟨?_, (ih (u.Rank :: seen)).1⟩, ?_⟩
      · intro b hb
        have := (ih (u.Rank :: seen)).2 b hb
        intro he
        exact this (by rw [← he]; exact List.mem_cons_self _ _)
      · intro r hr
        rcases List.mem_cons.mp hr with hr2 | hr2
        · subst hr2; exact hmem
        · intro hrs
          exact (ih (u.Rank :: seen)).2 r hr2 (List.mem_cons_of_mem _ hrs)

theorem validPass_names :
    ∀ (l : List Candidate) (seen : List String),
      List.Pairwise (fun a b => a.University ≠ b.University) (validPass l seen) ∧
      ∀ r ∈ validPass l seen, r.University ∉ seen := by
  intro l
  induction l with
  | nil => intro seen; simp [validPass]
  | cons u us ih =>
    intro seen
    rw [validPass]
    split
    next hc =>
      exact ⟨(ih seen).1, (ih seen).2⟩
    next hc =>
      push_neg at hc
      split
      · refine ⟨(ih _).1, ?_⟩
        intro r hr hrs
        exact (ih _).2 r hr (List.mem_cons_of_mem _ hrs)
      next y hy =>
        refine ⟨List.pairwise_cons.mpr ⟨?_, (ih _).1⟩, ?_⟩
        · intro b hb
          have := (ih _).2 b hb
          intro he
          exact this (by rw [← he]; exact List.mem_cons_self _ _)
        · intro r hr
          rcases List.mem_cons.mp hr with hr2 | hr2
          · subst hr2; exact hc.2.2.2
          · intro hrs
            exact (ih _).2 r hr2 (List.mem_cons_of_mem _ hrs)

/-! ### Structure lemmas about the rank parsing of the line scan -/

theorem digit_not_ws {c : Char} (h : c.isDigit = true) : c.isWhitespace = false := by
  by_cases hw : c.isWhitespace = true
  · exfalso
    have hws : ((c = ' ' ∨ c = '\t') ∨ c = '\r') ∨ c = '\n' := by
      simpa [Char.isWhitespace] using hw
    rcases hws with ((h1 | h1) | h1) | h1 <;> (rw [h1] at h; exact absurd h (by decide))
  · simpa using hw

theorem dropWhile_ws_eq_self {l : List Char} (h : ∀ c ∈ l, c.isWhitespace = false) :
    List.dropWhile Char.isWhitespace l = l := by
  cases l with
  | nil => rfl
  | cons x xs =>
    rw [List.dropWhile_cons, h x (List.mem_cons_self _ _)]
    simp

theorem trimChars_of_all_digits {l : List Char} (hall : l.all Char.isDigit = true) :
    trimChars l = l := by
  have hws : ∀ c ∈ l, c.isWhitespace = false := by
    intro c hc
    exact digit_not_ws (List.all_eq_true.mp hall c hc)
  unfold trimChars dropTrailingWs
  rw [dropWhile_ws_eq_self hws, dropWhile_ws_eq_self (by intro c hc; exact hws c (List.mem_reverse.mp hc)), List.reverse_reverse]

theorem takeDigits_all (l : List Char) : (takeDigits l).all Char.isDigit = true := by
  induction l with
  | nil => rfl
  | cons c cs ih =>
    unfold takeDigits at *
    rw [List.takeWhile_cons]
    split
    next hd => simp [hd, ih]
    · rfl

theorem digit_ne_plus {c : Char} (h : c.isDigit = true) : (c == '+') = false := by
  refine beq_eq_false_iff_ne.mpr ?_
  intro he; subst he; exact absurd h (by decide)

theorem digit_ne_minus {c : Char} (h : c.isDigit = true) : (c == '-') = false := by
  refine beq_eq_false_iff_ne.mpr ?_
  intro he; subst he; exact absurd h (by decide)

theorem pyIntOfChars_digits {l : List Char} (hne : l ≠ []) (hall : l.all Char.isDigit = true) :
    pyIntOfChars l = some (Int.ofNat (natOfDigits l)) := by
  cases l with
  | nil => exact absurd rfl hne
  | cons c cs =>
    have hc : c.isDigit = true := by
      have h2 := hall
      simp only [List.all_cons, Bool.and_eq_true] at h2
      exact h2.1
    rw [pyIntOfChars]
    simp only [digit_ne_plus hc, digit_ne_minus hc, Bool.false_eq_true, if_false, hall, if_true]

theorem pythonIntParse_digits {l : List Char} (hne : l ≠ []) (hall : l.all Char.isDigit = true) :
    pythonIntParse ⟨l⟩ = some (Int.ofNat (natOfDigits l)) := by
  unfold pythonIntParse
  rw [show (⟨l⟩ : String).data = l from rfl, trimChars_of_all_digits hall]
  exact pyIntOfChars_digits hne hall

theorem dropWhile_ws_append_hash :
    ∀ xs : List Char, ∃ ys, List.dropWhile Char.isWhitespace (xs ++ ['#']) = ys ++ ['#'] := by
  intro xs
  induction xs with
  | nil => exact ⟨[], rfl⟩
  | cons x xs ih =>
    by_cases hx : x.isWhitespace = true
    · obtain ⟨ys, hys⟩ := ih
      refine ⟨ys, ?_⟩
      rw [List.cons_append, List.dropWhile_cons, hx]
      simpa using hys
    · refine ⟨x :: xs, ?_⟩
      rw [List.cons_append, List.dropWhile_cons]
      simp [hx]

theorem trimChars_hash (u : List Char) : ∃ w, trimChars ('#' :: u) = '#' :: w := by
  obtain ⟨ys, hys⟩ := dropWhile_ws_append_hash u.reverse
  refine ⟨ys.reverse, ?_⟩
  unfold trimChars dropTrailingWs
  have h1 : List.dropWhile Char.isWhitespace ('#' :: u) = '#' :: u := rfl
  rw [h1, List.reverse_cons, hys, List.reverse_append]
  rfl

theorem pythonIntParse_hash_none (u : List Char) : pythonIntParse ⟨'#' :: u⟩ = none := by
  unfold pythonIntParse
  rw [show (⟨'#' :: u⟩ : String).data = '#' :: u from rfl]
  obtain ⟨w, hw⟩ := trimChars_hash u
  rw [hw, pyIntOfChars]
  have h3 : (('#' : Char) :: w).all Char.isDigit = false := by
    rw [List.all_cons, show ('#' : Char).isDigit = false from rfl]
    simp
  simp only [show (('#' : Char) == '+') = false from rfl,
    show (('#' : Char) == '-') = false from rfl, h3, Bool.false_eq_true, if_false]

theorem removeTieChars_hash (t : List Char) :
    removeTieChars ('#' :: t) = '#' :: removeTieChars t := rfl

theorem parseRankLine_nonneg {r : String} {k : Int}
    (hs : startsWithS r "#" = true) (hp : parseRankLine r = some k) : 0 ≤ k := by
  have hd : ∃ t, r.data = '#' :: t := by
    unfold startsWithS at hs
    rw [show ("#" : String).data = ['#'] from rfl] at hs
    cases hrd : r.data with
    | nil => rw [hrd] at hs; exact absurd hs (by decide)
    | cons c cs =>
      rw [hrd] at hs
      simp only [listIsPref, Bool.and_eq_true, beq_iff_eq] at hs
      exact ⟨cs, by rw [hs.1]⟩
  obtain ⟨t, ht⟩ := hd
  unfold parseRankLine at hp
  rw [ht, removeTieChars_hash] at hp
  rcases hm : removeTieChars t with _ | ⟨d, ds⟩
  · rw [hm, show subRankNumChars ['#'] = ['#'] from rfl, pythonIntParse_hash_none] at hp
    cases hp
  · rw [hm, show subRankNumChars ('#' :: d :: ds) =
        if d.isDigit then takeDigits (d :: ds) else '#' :: subRankNumChars (d :: ds) from rfl] at hp
    by_cases hdig : d.isDigit = true
    · rw [if_pos hdig] at hp
      have hne : takeDigits (d :: ds) ≠ [] := by
        unfold takeDigits
        rw [List.takeWhile_cons, hdig]
        simp
      rw [pythonIntParse_digits hne (takeDigits_all _)] at hp
      injection hp with he
      rw [← he]
      exact Int.ofNat_nonneg _
    · rw [if_neg hdig, pythonIntParse_hash_none] at hp
      cases hp

theorem rankStep_nonneg {ls rest : List String} {k : Int}
    (h : rankStep ls = (some (some k), rest)) : 0 ≤ k := by
  cases ls with
  | nil =>
    rw [rankStep] at h
    injection h with h1 h2
    exact absurd h1 (by simp)
  | cons r rs =>
    rw [rankStep] at h
    split at h
    next hs =>
      split at h
      · injection h with h1 h2
        exact absurd h1 (by simp)
      next k0 hp =>
        injection h with h1 h2
        have hk : k0 = k := by simpa using h1
        subst hk
        exact parseRankLine_nonneg hs hp
    · injection h with h1 h2
      exact absurd h1 (by simp)

theorem parseLinesLoop_rank_pos (maxRank : Nat) :
    ∀ (fuel : Nat) (ls : List String) (cnt : Nat) (rec : Candidate),
      rec ∈ parseLinesLoop maxRank fuel ls cnt → 1 ≤ rec.Rank := by
  intro fuel
  induction fuel with
  | zero => intro ls cnt rec h; simp [parseLinesLoop] at h
  | succ n ih =>
    intro ls cnt rec h
    cases ls with
    | nil => simp [parseLinesLoop] at h
    | cons l rest =>
      rw [parseLinesLoop] at h
      split at h
      · simp at h
      · split at h
        · split at h
          next ls2 heq => exact ih _ _ _ h
          next k ls2 heq =>
            split at h
            next hcond =>
              rcases List.mem_cons.mp h with hr | hr
              · subst hr
                have h0 := rankStep_nonneg heq
                have h1 := hcond.1
                show 1 ≤ k
                omega
              · exact ih _ _ _ hr
            · exact ih _ _ _ h
          next ls2 heq => exact ih _ _ _ h
        · exact ih _ _ _ h

/-! ### Remaining claims -/

/-- Claim C6 (counterexample): with `maxRank = 500`, the line-scan pipeline
emits a record of rank 600 (`max_rank` bounds the number of records, not
the rank values), and the extractor validator keeps a candidate of rank
1500 (its hard-coded bound is 2000, independent of any configuration). -/
theorem rank_bound_counterexample :
    (parse_usnews_text "Some University\n#600" 500).map (fun c => c.Rank) = [(600 : Int)] ∧
    (clean_and_standardize_data
      [{ Rank := 1500, University := "Example University", Country := "N/A",
         Score := "N/A", Enrollment := "N/A" }]).map (fun c => c.Rank) = [(1500 : Int)] := by
  constructor
  · decide
  · decide

/-- Claim C6 (amended): every record output by the extractor validator has
a rank in `[1, 2000]` — the bound `2000` being hard-coded, not the
configured maximum — and every record output by the line-scan parser has a
positive rank (no upper bound is enforced there; `max_rank` only limits the
record count).  A candidate whose rank fails these checks is dropped. -/
theorem pipeline_rank_bounds :
    (∀ (cands : List Candidate) (rec : Candidate),
        rec ∈ clean_and_standardize_data cands → 1 ≤ rec.Rank ∧ rec.Rank ≤ 2000) ∧
    (∀ (text : String) (maxRank : Nat) (rec : Candidate),
        rec ∈ parse_usnews_text text maxRank → 1 ≤ rec.Rank) := by
  constructor
  · intro cands rec h
    have h2 := validPass_mem_shape _ _ _ (clean_mem_validPass h)
    exact ⟨by omega, h2.2.1⟩
  · intro text maxRank rec h
    exact parseLinesLoop_rank_pos maxRank _ _ _ rec h

/-- Witness for `pipeline_rank_bounds` on a concrete candidate list. -/
theorem pipeline_rank_bounds_witness :
    1 ≤ ({ Rank := 5, University := "AAA", Country := "N/A", Score := "N/A",
           Enrollment := "N/A" } : Candidate).Rank ∧
    ({ Rank := 5, University := "AAA", Country := "N/A", Score := "N/A",
       Enrollment := "N/A" } : Candidate).Rank ≤ 2000 :=
  pipeline_rank_bounds.1
    [{ Rank := 5, University := "AAA", Country := "N/A", Score := "N/A", Enrollment := "N/A" }]
    { Rank := 5, University := "AAA", Country := "N/A", Score := "N/A", Enrollment := "N/A" }
    (by decide)

/-- Claim C7 (counterexample): the line-scan pipeline performs no
deduplication — on a repeated name/rank input it emits two records sharing
both the rank and the university name. -/
theorem parse_output_duplicates :
    ¬ (List.Pairwise (fun a b => a.Rank ≠ b.Rank)
         (parse_usnews_text "University One\n#1\nUniversity One\n#1" 500) ∧
       List.Pairwise (fun a b => a.University ≠ b.University)
         (parse_usnews_text "University One\n#1\nUniversity One\n#1" 500)) := by
  intro hcontra
  have heq : parse_usnews_text "University One\n#1\nUniversity One\n#1" 500 =
      [{ Rank := 1, University := "University One", Country := "N/A", Score := "N/A",
         Enrollment := "N/A" },
       { Rank := 1, University := "University One", Country := "N/A", Score := "N/A",
         Enrollment := "N/A" }] := by decide
  rw [heq] at hcontra
  have h1 := List.pairwise_cons.mp hcontra.1
  exact h1.1 _ (List.mem_cons_self _ _) rfl

/-- Claim C7 (amended): the extractor validator's output has pairwise
distinct ranks and pairwise distinct university names for every input; the
line-scan parser provides no such guarantee. -/
theorem validator_output_distinct :
    ∀ cands : List Candidate,
      List.Pairwise (fun a b => a.Rank ≠ b.Rank) (clean_and_standardize_data cands) ∧
      List.Pairwise (fun a b => a.University ≠ b.University) (clean_and_standardize_data cands) := by
  intro cands
  constructor
  · exact (dedupByRank_ranks _ _).1
  · have hp := (validPass_names cands []).1
    have hs := ((sortByRank_perm (validPass cands [])).pairwise_iff
      (fun h => Ne.symm h)).mpr hp
    exact List.Pairwise.sublist (dedupByRank_sublist _ _) hs

/-- Claim C8 (counterexample): on an empty block sequence the extractor
pipeline returns the plain empty list, exactly as it does for a non-empty
sequence from which nothing is extractable — no explicit failure is raised
and the two cases are indistinguishable; likewise the line-scan script
writes nothing for the empty text and for a non-empty unusable text. -/
theorem empty_input_indistinguishable :
    extract_university_data ([] : List (List Candidate)) 500 = [] ∧
    extract_university_data [[], [], []] 500 = [] ∧
    parseUsnewsCsvOutput "" 500 = none ∧
    parseUsnewsCsvOutput "###" 500 = parseUsnewsCsvOutput "" 500 := by
  refine ⟨rfl, by decide, rfl, by decide⟩

/-- Claim C8 (amended): for every configured target, empty input makes the
extractor pipeline return the empty list and the line-scan script produce
no output — a silent empty result rather than an explicit failure. -/
theorem empty_input_returns_empty :
    ∀ t : Nat,
      extract_university_data ([] : List (List Candidate)) t = [] ∧
      parseUsnewsCsvOutput "" t = none := by
  intro t
  exact ⟨rfl, rfl⟩

/-- Claim C9 (counterexample): two anchors with the same text, each inside
a container holding no `#` rank marker, both produce candidates — with the
positional fallback ranks 1 and 2 — instead of the second being discarded
as a duplicate name or either being discarded for the missing marker. -/
theorem links_no_dedup_no_discard :
    extract_via_university_links
      [{ text := "Example University", parent := some "plain container" },
       { text := "Example University", parent := some "another container" }] =
      [{ Rank := 1, University := "Example University", Country := "N/A",
         Score := "N/A", Enrollment := "N/A" },
       { Rank := 2, University := "Example University", Country := "N/A",
         Score := "N/A", Enrollment := "N/A" }] := by
  decide

/-- Claim C9 (amended): the link-anchor strategy emits exactly one
candidate for every accepted anchor (non-reserved text of length at least
3 with a located ancestor container), preserving duplicated names, and a
container without a `#` marker contributes a candidate with the positional
fallback rank instead of being discarded. -/
theorem links_one_candidate_per_anchor :
    ∀ links : List UniversityLink,
      (extract_via_university_links links).map (fun c => c.University) =
      (links.filter acceptedLink).map (fun lk => trimS lk.text) := by
  have key : ∀ (ls : List UniversityLink) (i : Nat),
      (extractLinksGo ls i).map (fun c => c.University) =
      (ls.filter acceptedLink).map (fun lk => trimS lk.text) := by
    intro ls
    induction ls with
    | nil => intro i; rfl
    | cons lk rest ih =>
      intro i
      rw [extractLinksGo, List.filter_cons]
      by_cases hname : trimS lk.text = "" ∨ (trimS lk.text).length < 3 ∨
          lowerS (trimS lk.text) ∈ (["read more", "view more", "details"] : List String)
      · rw [if_pos hname]
        have hacc : acceptedLink lk = false := by rw [acceptedLink, if_pos hname]
        rw [hacc]
        simpa using ih (i + 1)
      · rw [if_neg hname]
        have hacc : acceptedLink lk = lk.parent.isSome := by rw [acceptedLink, if_neg hname]
        rw [hacc]
        cases hp : lk.parent with
        | none => simpa using ih (i + 1)
        | some pt => simpa using ih (i + 1)
  intro links
  exact key links 0

/-- Claim C10: every record emitted by the validator/deduplicator/sorter
has its `Score` and `Enrollment` fields equal to the literal `"N/A"`,
whatever values the input candidates carried — the cleaning stage
overwrites both fields. -/
theorem validator_overwrites_score_enrollment :
    ∀ (cands : List Candidate) (rec : Candidate),
      rec ∈ clean_and_standardize_data cands →
      rec.Score = "N/A" ∧ rec.Enrollment = "N/A" := by
  intro cands rec h
  have h2 := validPass_mem_shape _ _ _ (clean_mem_validPass h)
  exact ⟨h2.2.2.1, h2.2.2.2⟩

/-- Witness for `validator_overwrites_score_enrollment` at a candidate that
carries non-sentinel score and enrollment values. -/
theorem validator_overwrites_witness :
    ({ Rank := 1, University := "Example University", Country := "N/A", Score := "N/A",
       Enrollment := "N/A" } : Candidate).Score = "N/A" ∧
    ({ Rank := 1, University := "Example University", Country := "N/A", Score := "N/A",
       Enrollment := "N/A" } : Candidate).Enrollment = "N/A" :=
  validator_overwrites_score_enrollment
    [{ Rank := 1, University := "Example University", Country := "N/A", Score := "99.9",
       Enrollment := "12345" }]
    { Rank := 1, University := "Example University", Country := "N/A", Score := "N/A",
      Enrollment := "N/A" }
    (by decide)
